import Mathlib

/-!
Verification of the pacing / quota / workflow core of the `subspace-assesment`
LinkedIn-automation repository, as a shallow embedding in Lean 4.

Modelling conventions:
* Wall-clock instants are natural numbers counting minutes since an arbitrary
  epoch.  `DATE(sent_at) = today` becomes "same `t / 1440` day index";
  `sent_at >= now - 1 hour` becomes `now ≤ t + 60`.
* Go `int` configuration fields are embedded as `Int` (they may be zero or
  negative in a misconfigured file).
* The SQLite store is embedded as in-memory lists of rows; every query used
  by the claims (`GetTodayStats`, `GetHourlyStats`, `IsConnectionSent`,
  `GetAcceptedConnections`, `LogActivity`, `SaveConnectionRequest`,
  `SaveMessage`, `UpdateConnectionStatus`) is translated row-for-row from the
  SQL in `internal/storage/storage.go`.
* Browser interaction (navigation, clicking, typing) is external to the core;
  a send attempt's success is an oracle `Profile → Bool` /
  `ConnectionRequest → Bool`, exactly as the spec treats the interaction
  collaborator as a black box.
-/

namespace LinkedinBot

/-- `config.DelayConfig` — a `[min,max]` millisecond band (Go `int` fields). -/
structure DelayConfig where
  min : Int
  max : Int
  deriving DecidableEq, Repr

/-- The four delay bands of `config.StealthConfig` used by `RandomDelay`. -/
structure StealthConfig where
  actionDelay : DelayConfig
  scrollDelay : DelayConfig
  typingDelay : DelayConfig
  thinkTime : DelayConfig
  deriving DecidableEq, Repr

/-- `config.RateLimit` — hourly and daily caps for one action kind. -/
structure RateLimit where
  perHour : Int
  perDay : Int
  deriving DecidableEq, Repr

/-- `config.RateLimitsConfig`. -/
structure RateLimitsConfig where
  connections : RateLimit
  messages : RateLimit
  searches : RateLimit
  deriving DecidableEq, Repr

/-- `config.MessagingConfig` (the fields the messaging loop reads). -/
structure MessagingConfig where
  enabled : Bool
  delayAfterConnectionHours : Int
  deriving DecidableEq, Repr

/-- `config.ActiveHoursConfig`; the Go field `End` is spelled `endHour`. -/
structure ActiveHoursConfig where
  start : Int
  endHour : Int
  deriving DecidableEq, Repr

/-- `config.SchedulingConfig`. -/
structure SchedulingConfig where
  activeHours : ActiveHoursConfig
  activeDays : List String
  deriving DecidableEq, Repr

/-- `config.ViewportConfig`. -/
structure ViewportConfig where
  width : Int
  height : Int
  deriving DecidableEq, Repr

/-- `config.BrowserConfig` (the fields `Validate` reads). -/
structure BrowserConfig where
  viewport : ViewportConfig
  userAgents : List String
  deriving DecidableEq, Repr

/-- `config.StorageConfig` (the field `Validate` reads). -/
structure StorageConfig where
  databasePath : String
  deriving DecidableEq, Repr

/-- `config.Config`, restricted to the fields the verified core reads. -/
structure Config where
  browser : BrowserConfig
  stealth : StealthConfig
  rateLimits : RateLimitsConfig
  messaging : MessagingConfig
  scheduling : SchedulingConfig
  storage : StorageConfig
  deriving DecidableEq, Repr

/-- A row of the `profiles` table / `storage.Profile` (identity key only;
the descriptive attributes play no role in the verified control flow). -/
structure Profile where
  profileURL : String
  deriving DecidableEq, Repr

/-- A row of the `connection_requests` table (`storage.ConnectionRequest`).
`sentAt` is in minutes; `acceptedAt` is `NULL`able. The autoincrement id and
profile id are omitted (no claim reads them). -/
structure ConnectionRequest where
  profileURL : String
  sentAt : Nat
  note : String
  status : String
  acceptedAt : Option Nat
  deriving DecidableEq, Repr

/-- A row of the `messages` table (`storage.Message`). -/
structure Message where
  profileURL : String
  content : String
  sentAt : Nat
  status : String
  deriving DecidableEq, Repr

/-- A row of the `activity_log` table (`storage`'s `LogActivity` insert). -/
structure ActivityEvent where
  actionType : String
  targetURL : String
  outcome : String
  errorMessage : String
  deriving DecidableEq, Repr

/-- The persisted state: the three tables the claims read and write. -/
structure Store where
  connections : List ConnectionRequest
  messages : List Message
  activity : List ActivityEvent
  deriving DecidableEq, Repr

def emptyStore : Store := ⟨[], [], []⟩

/-- `DATE(sent_at) = DATE(now)` with minute timestamps: same calendar day. -/
def isToday (now t : Nat) : Bool := t / 1440 = now / 1440

/-- `sent_at >= now - 1 hour` with minute timestamps. -/
def inLastHour (now t : Nat) : Bool := now ≤ t + 60

/-- The `connection_requests` count behind `GetTodayStats().ConnectionsSent`. -/
def todayConnections (st : Store) (now : Nat) : Nat :=
  (st.connections.filter (fun c => isToday now c.sentAt)).length

/-- The `connection_requests` count behind `GetHourlyStats().ConnectionsSent`. -/
def hourlyConnections (st : Store) (now : Nat) : Nat :=
  (st.connections.filter (fun c => inLastHour now c.sentAt)).length

/-- The `messages` count behind `GetTodayStats().MessagesSent`. -/
def todayMessages (st : Store) (now : Nat) : Nat :=
  (st.messages.filter (fun m => isToday now m.sentAt)).length

/-- The `messages` count behind `GetHourlyStats().MessagesSent`. -/
def hourlyMessages (st : Store) (now : Nat) : Nat :=
  (st.messages.filter (fun m => inLastHour now m.sentAt)).length

/-- `connect.Service.canSendConnection`: daily cap checked first, then the
hourly cap, each with a `count >= cap` comparison. -/
def canSendConnection (st : Store) (now : Nat) (cfg : Config) : Bool :=
  if (todayConnections st now : Int) ≥ cfg.rateLimits.connections.perDay then false
  else if (hourlyConnections st now : Int) ≥ cfg.rateLimits.connections.perHour then false
  else true

/-- `message.Service.canSendMessage`: daily cap checked first, then the
hourly cap, each with a `count >= cap` comparison. -/
def canSendMessage (st : Store) (now : Nat) (cfg : Config) : Bool :=
  if (todayMessages st now : Int) ≥ cfg.rateLimits.messages.perDay then false
  else if (hourlyMessages st now : Int) ≥ cfg.rateLimits.messages.perHour then false
  else true

/-- `Storage.IsConnectionSent`: `COUNT(*) ... WHERE profile_url = ? > 0`. -/
def connectionRowsFor (st : Store) (url : String) : Nat :=
  (st.connections.filter (fun c => c.profileURL = url)).length

def isConnectionSent (st : Store) (url : String) : Bool :=
  decide (0 < connectionRowsFor st url)

/-- `Storage.IsMessageSent`: `COUNT(*) FROM messages WHERE profile_url = ? > 0`. -/
def isMessageSent (st : Store) (url : String) : Bool :=
  decide (0 < (st.messages.filter (fun m => m.profileURL = url)).length)

/-- `Storage.LogActivity`: append one row to `activity_log`. -/
def logActivity (st : Store) (actionType targetURL outcome errorMessage : String) : Store :=
  { st with activity := st.activity ++ [⟨actionType, targetURL, outcome, errorMessage⟩] }

/-- The row inserted by `Storage.SaveConnectionRequest`: the SQL names
`(profile_id, profile_url, note, status)` only, so `accepted_at` is `NULL`
and `sent_at` takes its `CURRENT_TIMESTAMP` default. -/
def saveConnectionRequestRow (url note status : String) (now : Nat)
    (l : List ConnectionRequest) : List ConnectionRequest :=
  l ++ [⟨url, now, note, status, none⟩]

/-- `Storage.SaveConnectionRequest` on the whole store. -/
def saveConnectionRequest (st : Store) (url note status : String) (now : Nat) : Store :=
  { st with connections := saveConnectionRequestRow url note status now st.connections }

/-- `Storage.SaveMessage`: the SQL names `(profile_id, profile_url, content,
status)`, so `sent_at` takes its `CURRENT_TIMESTAMP` default. -/
def saveMessage (st : Store) (url content status : String) (now : Nat) : Store :=
  { st with messages := st.messages ++ [⟨url, content, now, status⟩] }

/-- `Storage.UpdateConnectionStatus`: `SET status = ?, accepted_at = CASE
WHEN ? = 'accepted' THEN CURRENT_TIMESTAMP ELSE accepted_at END WHERE
profile_url = ?`. -/
def updateConnectionStatusRows (url status : String) (now : Nat)
    (l : List ConnectionRequest) : List ConnectionRequest :=
  l.map fun c =>
    if c.profileURL = url then
      { c with status := status,
               acceptedAt := if status = "accepted" then some now else c.acceptedAt }
    else c

def updateConnectionStatus (st : Store) (url status : String) (now : Nat) : Store :=
  { st with connections := updateConnectionStatusRows url status now st.connections }

/-- `Storage.GetAcceptedConnections`: `status = 'accepted'` and no row in
`messages` joins on the same `profile_url` (`m.id IS NULL`).  The query's
`ORDER BY accepted_at DESC` is dropped: no verified claim depends on order. -/
def getAcceptedConnections (st : Store) : List ConnectionRequest :=
  st.connections.filter (fun c => c.status = "accepted" && !(isMessageSent st c.profileURL))

/-- `connect.Service.sendConnectionRequest` for one profile.  The browser
steps (navigate, find the Connect button, click, optionally add a note, click
Send) all precede persistence; whether they succeed is the oracle bit `ok`.
On success the code saves the request row with status "pending" (and a `nil`
`AcceptedAt`, `sent_at` defaulting to the current time) and then logs a
"success" activity event; on any earlier failure it returns the error having
touched nothing. -/
def sendConnectionRequest (ok : Bool) (now : Nat) (st : Store) (p : Profile) :
    Option Store :=
  if ok then
    some (logActivity (saveConnectionRequest st p.profileURL "" "pending" now)
      "connection_request" p.profileURL "success" "")
  else none

/-- `connect.Service.SendConnectionRequests`: per profile it (1) breaks out of
the whole loop if `canSendConnection` is false, (2) skips the profile if
`IsConnectionSent` reports an existing request row, (3) otherwise attempts the
send; a failed attempt is logged as a failed activity event and the loop
continues.  Returns the final store and the number of requests sent.  The
wall clock `now` is held fixed across the loop (the pacing sleeps between
iterations are timing-only and keep every row inside the same hour/day). -/
def sendConnectionRequests (cfg : Config) (now : Nat) (ok : Profile → Bool) :
    List Profile → Store → Store × Nat
  | [], st => (st, 0)
  | p :: ps, st =>
    if canSendConnection st now cfg = false then (st, 0)
    else if isConnectionSent st p.profileURL then
      sendConnectionRequests cfg now ok ps st
    else
      match sendConnectionRequest (ok p) now st p with
      | some st1 =>
        let r := sendConnectionRequests cfg now ok ps st1
        (r.1, r.2 + 1)
      | none =>
        sendConnectionRequests cfg now ok ps
          (logActivity st "connection_request" p.profileURL "failed" "send error")

/-- The `conn.AcceptedAt != nil && time.Since(*conn.AcceptedAt).Hours() <
float64(DelayAfterConnectionHours)` guard of `message.Service.SendMessages`.
With minute timestamps, `elapsed.Hours() < D` is exactly
`now - acceptedAt < 60 * D`. -/
def acceptedTooRecently (cfg : Config) (now : Nat) (c : ConnectionRequest) : Bool :=
  match c.acceptedAt with
  | some t => decide ((now : Int) - (t : Int) < 60 * cfg.messaging.delayAfterConnectionHours)
  | none => false

/-- The message-content generation of `message.Service.sendMessage`
(template choice and placeholder substitution) is outside the verified
claims; its result is abstracted as a function of the connection row. -/
def sendMessagesLoop (cfg : Config) (now : Nat) (ok : ConnectionRequest → Bool)
    (content : ConnectionRequest → String) :
    List ConnectionRequest → Store → Store × Nat
  | [], st => (st, 0)
  | c :: cs, st =>
    if canSendMessage st now cfg = false then (st, 0)
    else if acceptedTooRecently cfg now c then
      sendMessagesLoop cfg now ok content cs st
    else if ok c then
      let st1 := logActivity (saveMessage st c.profileURL (content c) "sent" now)
        "message" c.profileURL "success" ""
      let r := sendMessagesLoop cfg now ok content cs st1
      (r.1, r.2 + 1)
    else
      sendMessagesLoop cfg now ok content cs
        (logActivity st "message" c.profileURL "failed" "send error")

/-- `message.Service.SendMessages`: returns immediately when messaging is
disabled, otherwise iterates over `GetAcceptedConnections` with the per-row
loop above. -/
def sendMessages (cfg : Config) (now : Nat) (ok : ConnectionRequest → Bool)
    (content : ConnectionRequest → String) (st : Store) : Store × Nat :=
  if cfg.messaging.enabled = false then (st, 0)
  else sendMessagesLoop cfg now ok content (getAcceptedConnections st) st

end LinkedinBot

namespace LinkedinBot

/-- **C1.** `canSendConnection` / `canSendMessage` return `true` exactly when
both the last-hour count and the calendar-day count of the kind's persisted
records are strictly below their caps; a count equal to a cap blocks. -/
theorem quota_check_boundary (st : Store) (now : Nat) (cfg : Config) :
    (canSendConnection st now cfg = true ↔
      (hourlyConnections st now : Int) < cfg.rateLimits.connections.perHour ∧
      (todayConnections st now : Int) < cfg.rateLimits.connections.perDay) ∧
    (canSendMessage st now cfg = true ↔
      (hourlyMessages st now : Int) < cfg.rateLimits.messages.perHour ∧
      (todayMessages st now : Int) < cfg.rateLimits.messages.perDay) := by
  constructor
  · unfold canSendConnection
    split <;> [skip; split] <;> simp <;> omega
  · unfold canSendMessage
    split <;> [skip; split] <;> simp <;> omega

theorem connectionRowsFor_logActivity (st : Store) (a b c d url : String) :
    connectionRowsFor (logActivity st a b c d) url = connectionRowsFor st url := rfl

theorem connectionRowsFor_save (st : Store) (u note status url : String) (now : Nat) :
    connectionRowsFor (saveConnectionRequest st u note status now) url =
      connectionRowsFor st url + (if u = url then 1 else 0) := by
  simp only [connectionRowsFor, saveConnectionRequest, saveConnectionRequestRow,
    List.filter_append, List.length_append]
  by_cases h : u = url <;> simp [h, List.filter]

theorem isConnectionSent_false_iff (st : Store) (url : String) :
    isConnectionSent st url = false ↔ connectionRowsFor st url = 0 := by
  simp [isConnectionSent]

/-- The store after a successful per-profile send: the pending request row
is persisted and a "success" activity event appended. -/
def afterSuccessfulSend (st : Store) (url : String) (now : Nat) : Store :=
  logActivity (saveConnectionRequest st url "" "pending" now)
    "connection_request" url "success" ""

theorem sendConnectionRequest_true (now : Nat) (st : Store) (p : Profile) :
    sendConnectionRequest true now st p = some (afterSuccessfulSend st p.profileURL now) := rfl

theorem run_preserves_existing (cfg : Config) (now : Nat) (ok : Profile → Bool) :
    ∀ (ps : List Profile) (st : Store) (url : String),
      0 < connectionRowsFor st url →
      connectionRowsFor (sendConnectionRequests cfg now ok ps st).1 url
        = connectionRowsFor st url := by
  intro ps
  induction ps with
  | nil => intro st url _; rfl
  | cons p ps ih =>
    intro st url h
    unfold sendConnectionRequests
    split
    · rfl
    · split
      · exact ih st url h
      · rename_i hquota hsent
        cases hok : ok p with
        | true =>
          rw [sendConnectionRequest_true]
          have h0 : connectionRowsFor st p.profileURL = 0 :=
            (isConnectionSent_false_iff st p.profileURL).mp (by simpa using hsent)
          have hne : p.profileURL = url → False := by
            intro he; rw [he] at h0; omega
          have hrows : connectionRowsFor (afterSuccessfulSend st p.profileURL now) url
              = connectionRowsFor st url := by
            unfold afterSuccessfulSend
            rw [connectionRowsFor_logActivity, connectionRowsFor_save, if_neg hne]
            omega
          simp only []
          rw [ih _ url (by rw [hrows]; exact h), hrows]
        | false =>
          rw [show sendConnectionRequest false now st p = none from rfl]
          rw [ih _ url (by rw [connectionRowsFor_logActivity]; exact h),
            connectionRowsFor_logActivity]

theorem run_at_most_one (cfg : Config) (now : Nat) (ok : Profile → Bool) :
    ∀ (ps : List Profile) (st : Store),
      (∀ url, connectionRowsFor st url ≤ 1) →
      ∀ url, connectionRowsFor (sendConnectionRequests cfg now ok ps st).1 url ≤ 1 := by
  intro ps
  induction ps with
  | nil => intro st hall url; exact hall url
  | cons p ps ih =>
    intro st hall url
    unfold sendConnectionRequests
    split
    · exact hall url
    · split
      · exact ih st hall url
      · rename_i hquota hsent
        cases hok : ok p with
        | true =>
          rw [sendConnectionRequest_true]
          have h0 : connectionRowsFor st p.profileURL = 0 :=
            (isConnectionSent_false_iff st p.profileURL).mp (by simpa using hsent)
          refine ih _ ?_ url
          intro u
          unfold afterSuccessfulSend
          rw [connectionRowsFor_logActivity, connectionRowsFor_save]
          by_cases he : p.profileURL = u
          · subst he; simp [h0]
          · simp [he]; exact hall u
        | false =>
          rw [show sendConnectionRequest false now st p = none from rfl]
          exact ih _ (fun u => by rw [connectionRowsFor_logActivity]; exact hall u) url

/-- **C2.** A profile with an existing connection-request row of any status is
skipped by `SendConnectionRequests` (the phase over the rest of the list is
unchanged), rows that already exist are never added to, and the "at most one
request row per profile URL" invariant is preserved by a whole phase. -/
theorem connection_dedup_invariant (cfg : Config) (now : Nat) (ok : Profile → Bool)
    (ps : List Profile) (st : Store) (p : Profile) :
    (canSendConnection st now cfg = true → isConnectionSent st p.profileURL = true →
      sendConnectionRequests cfg now ok (p :: ps) st = sendConnectionRequests cfg now ok ps st) ∧
    (∀ url, 0 < connectionRowsFor st url →
      connectionRowsFor (sendConnectionRequests cfg now ok ps st).1 url
        = connectionRowsFor st url) ∧
    ((∀ url, connectionRowsFor st url ≤ 1) →
      ∀ url, connectionRowsFor (sendConnectionRequests cfg now ok ps st).1 url ≤ 1) := by
  refine ⟨?_, fun url h => run_preserves_existing cfg now ok ps st url h,
    fun hall url => run_at_most_one cfg now ok ps st hall url⟩
  intro hq hs
  conv_lhs => unfold sendConnectionRequests
  rw [if_neg (by simp [hq]), if_pos hs]

/-- Witness for C2 at a concrete input: a store already holding a request for
"u" and a profile list retrying "u". -/
theorem connection_dedup_invariant_witness :
    sendConnectionRequests
        ⟨⟨⟨100, 100⟩, ["ua"]⟩, ⟨⟨1, 2⟩, ⟨1, 2⟩, ⟨1, 2⟩, ⟨1, 2⟩⟩,
          ⟨⟨5, 20⟩, ⟨5, 20⟩, ⟨5, 20⟩⟩, ⟨true, 2⟩, ⟨⟨9, 17⟩, ["monday"]⟩, ⟨"db"⟩⟩
        0 (fun _ => true) [⟨"u"⟩]
        ⟨[⟨"u", 0, "", "pending", none⟩], [], []⟩
      = sendConnectionRequests
        ⟨⟨⟨100, 100⟩, ["ua"]⟩, ⟨⟨1, 2⟩, ⟨1, 2⟩, ⟨1, 2⟩, ⟨1, 2⟩⟩,
          ⟨⟨5, 20⟩, ⟨5, 20⟩, ⟨5, 20⟩⟩, ⟨true, 2⟩, ⟨⟨9, 17⟩, ["monday"]⟩, ⟨"db"⟩⟩
        0 (fun _ => true) []
        ⟨[⟨"u", 0, "", "pending", none⟩], [], []⟩ := by
  have h := connection_dedup_invariant
    ⟨⟨⟨100, 100⟩, ["ua"]⟩, ⟨⟨1, 2⟩, ⟨1, 2⟩, ⟨1, 2⟩, ⟨1, 2⟩⟩,
      ⟨⟨5, 20⟩, ⟨5, 20⟩, ⟨5, 20⟩⟩, ⟨true, 2⟩, ⟨⟨9, 17⟩, ["monday"]⟩, ⟨"db"⟩⟩
    0 (fun _ => true) [] ⟨[⟨"u", 0, "", "pending", none⟩], [], []⟩ ⟨"u"⟩
  exact h.1 (by decide) (by decide)

/-- A well-formed concrete configuration used by the concrete witnesses:
caps 5/h 20/day connections, 4/h 15/day messages, messaging enabled with a
2-hour post-acceptance delay, active Monday/Tuesday 9–17. -/
def cfgEx : Config :=
  { browser := ⟨⟨1280, 800⟩, ["ua"]⟩,
    stealth := ⟨⟨100, 200⟩, ⟨300, 400⟩, ⟨50, 150⟩, ⟨1000, 3000⟩⟩,
    rateLimits := ⟨⟨5, 20⟩, ⟨4, 15⟩, ⟨10, 50⟩⟩,
    messaging := ⟨true, 2⟩,
    scheduling := ⟨⟨9, 17⟩, ["monday", "tuesday"]⟩,
    storage := ⟨"db"⟩ }

/-- **C3.** With an acceptance timestamp `T` (minutes) and configured delay
`D` hours: while `now − T < 60·D` the messaging loop skips the connection
without sending, and as soon as `now − T ≥ 60·D` — so in particular at
exactly `T + 60·D` — the delay guard passes and the send is attempted
(boundary inclusive). -/
theorem message_min_delay_guard (cfg : Config) (now : Nat) (ok : ConnectionRequest → Bool)
    (content : ConnectionRequest → String) (c : ConnectionRequest)
    (cs : List ConnectionRequest) (st : Store) (T : Nat)
    (hacc : c.acceptedAt = some T)
    (hq : canSendMessage st now cfg = true) :
    (((now : Int) - T < 60 * cfg.messaging.delayAfterConnectionHours) →
      sendMessagesLoop cfg now ok content (c :: cs) st
        = sendMessagesLoop cfg now ok content cs st) ∧
    ((60 * cfg.messaging.delayAfterConnectionHours ≤ (now : Int) - T) → ok c = true →
      sendMessagesLoop cfg now ok content (c :: cs) st
        = (let st1 := logActivity (saveMessage st c.profileURL (content c) "sent" now)
             "message" c.profileURL "success" ""
           let r := sendMessagesLoop cfg now ok content cs st1
           (r.1, r.2 + 1))) := by
  constructor
  · intro hlt
    conv_lhs => unfold sendMessagesLoop
    rw [if_neg (by simp [hq]), if_pos (by simp [acceptedTooRecently, hacc, hlt])]
  · intro hge hok
    conv_lhs => unfold sendMessagesLoop
    rw [if_neg (by simp [hq]), if_neg (by simp [acceptedTooRecently, hacc]; omega),
      if_pos hok]

/-- Witness for C3: with a 2-hour delay and acceptance at minute 10, the
loop skips at `now = 100` (90 min elapsed) and sends at the exact boundary
`now = 130` (120 min elapsed). -/
theorem message_min_delay_guard_witness :
    sendMessagesLoop cfgEx 100 (fun _ => true) (fun _ => "hi")
        [⟨"u", 0, "", "accepted", some 10⟩] emptyStore = (emptyStore, 0) ∧
    sendMessagesLoop cfgEx 130 (fun _ => true) (fun _ => "hi")
        [⟨"u", 0, "", "accepted", some 10⟩] emptyStore
      = (logActivity (saveMessage emptyStore "u" "hi" "sent" 130) "message" "u" "success" "", 1) := by
  constructor
  · rw [(message_min_delay_guard cfgEx 100 (fun _ => true) (fun _ => "hi")
      ⟨"u", 0, "", "accepted", some 10⟩ [] emptyStore 10 rfl (by decide)).1 (by decide)]
    rfl
  · rw [(message_min_delay_guard cfgEx 130 (fun _ => true) (fun _ => "hi")
      ⟨"u", 0, "", "accepted", some 10⟩ [] emptyStore 10 rfl (by decide)).2 (by decide) rfl]
    rfl

/-- **C4.** When the interaction collaborator fails before persistence, the
connection phase logs a failed ActivityEvent and continues with the rest of
the list; the failing profile gains no request row (`sendConnectionRequest`
persists nothing on failure), `IsConnectionSent` still reports it as never
contacted, so it stays eligible for a later cycle. -/
theorem failed_send_leaves_state (cfg : Config) (now : Nat) (ok : Profile → Bool)
    (ps : List Profile) (p : Profile) (st : Store)
    (hq : canSendConnection st now cfg = true)
    (hs : isConnectionSent st p.profileURL = false)
    (hf : ok p = false) :
    sendConnectionRequests cfg now ok (p :: ps) st
      = sendConnectionRequests cfg now ok ps
          (logActivity st "connection_request" p.profileURL "failed" "send error") ∧
    (logActivity st "connection_request" p.profileURL "failed" "send error").connections
      = st.connections ∧
    (logActivity st "connection_request" p.profileURL "failed" "send error").activity
      = st.activity ++ [⟨"connection_request", p.profileURL, "failed", "send error"⟩] ∧
    isConnectionSent (logActivity st "connection_request" p.profileURL "failed" "send error")
      p.profileURL = false ∧
    sendConnectionRequest false now st p = none := by
  refine ⟨?_, rfl, rfl, hs, rfl⟩
  conv_lhs => unfold sendConnectionRequests
  rw [if_neg (by simp [hq]), if_neg (by simp [hs]), hf]
  rfl

/-- Witness for C4 at a concrete input: one fresh profile whose send fails. -/
theorem failed_send_leaves_state_witness :
    sendConnectionRequests cfgEx 0 (fun _ => false) [⟨"u"⟩] emptyStore
      = sendConnectionRequests cfgEx 0 (fun _ => false) []
          (logActivity emptyStore "connection_request" "u" "failed" "send error") ∧
    isConnectionSent (logActivity emptyStore "connection_request" "u" "failed" "send error")
      "u" = false :=
  ⟨(failed_send_leaves_state cfgEx 0 (fun _ => false) [] ⟨"u"⟩ emptyStore
      (by decide) (by decide) rfl).1,
   (failed_send_leaves_state cfgEx 0 (fun _ => false) [] ⟨"u"⟩ emptyStore
      (by decide) (by decide) rfl).2.2.2.1⟩

/-- An operation on the `connection_requests` table: a
`SaveConnectionRequest` insert or an `UpdateConnectionStatus` update. -/
inductive StoreOp where
  | save (url note status : String)
  | update (url status : String)
  deriving DecidableEq, Repr

/-- Apply one timestamped operation to the table. -/
def applyOp (l : List ConnectionRequest) : Nat × StoreOp → List ConnectionRequest
  | (now, StoreOp.save url note status) => saveConnectionRequestRow url note status now l
  | (now, StoreOp.update url status) => updateConnectionStatusRows url status now l

/-- Apply a sequence of timestamped operations, oldest first. -/
def applyOps (ops : List (Nat × StoreOp)) (l : List ConnectionRequest) :
    List ConnectionRequest :=
  ops.foldl applyOp l

/-- The concrete operation sequence refuting C5: save as pending, accept,
then reject. -/
def c5ops : List (Nat × StoreOp) :=
  [(0, StoreOp.save "u" "" "pending"),
   (5, StoreOp.update "u" "accepted"),
   (9, StoreOp.update "u" "rejected")]

/-- **C5, counterexample.** After insert-pending / update-accepted /
update-rejected, the row has status "rejected" but still carries
`acceptedAt = some 5`: `UpdateConnectionStatus`'s SQL only overwrites
`accepted_at` when the new status is 'accepted' and otherwise keeps the old
value, so "acceptedAt is set iff status = accepted" is false. -/
theorem acceptedAt_iff_counterexample :
    applyOps c5ops [] = [⟨"u", 0, "", "rejected", some 5⟩] ∧
    ¬ (∀ (ops : List (Nat × StoreOp)) (c : ConnectionRequest), c ∈ applyOps ops [] →
        (c.acceptedAt.isSome = true ↔ c.status = "accepted")) := by
  refine ⟨by decide, fun h => ?_⟩
  have h2 := h c5ops ⟨"u", 0, "", "rejected", some 5⟩ (by decide)
  exact absurd (h2.mp rfl) (by decide)

/-- Recognizes operations that never insert a row directly in status
"accepted" — the repository's only insert site
(`connect.sendConnectionRequest`) always saves with status "pending". -/
def saveNotAccepted : Nat × StoreOp → Bool
  | (_, StoreOp.save _ _ status) => !(status == "accepted")
  | (_, StoreOp.update _ _) => true

/-- **C5, amended.** Provided no row is inserted directly with status
"accepted" (the code path always inserts "pending"), every row whose status
is "accepted" has its acceptance timestamp set, after any sequence of
`SaveConnectionRequest` / `UpdateConnectionStatus` operations.  (The
converse direction of the original claim is refuted above: a row accepted
and later rejected keeps its old `acceptedAt`.) -/
theorem acceptedAt_set_when_accepted (ops : List (Nat × StoreOp))
    (l0 : List ConnectionRequest)
    (h0 : ∀ c ∈ l0, c.status = "accepted" → c.acceptedAt.isSome = true)
    (hops : ∀ op ∈ ops, saveNotAccepted op = true) :
    ∀ c ∈ applyOps ops l0, c.status = "accepted" → c.acceptedAt.isSome = true := by
  induction ops generalizing l0 with
  | nil => exact h0
  | cons op ops ih =>
    have hstep : ∀ c ∈ applyOp l0 op, c.status = "accepted" → c.acceptedAt.isSome = true := by
      obtain ⟨now, op⟩ := op
      cases op with
      | save url note status =>
        intro c hc hacc
        simp only [applyOp, saveConnectionRequestRow, List.mem_append,
          List.mem_singleton] at hc
        rcases hc with hc | hc
        · exact h0 c hc hacc
        · subst hc
          have := hops (now, StoreOp.save url note status) (List.mem_cons_self _ _)
          simp only [saveNotAccepted, Bool.not_eq_true', beq_eq_false_iff_ne] at this
          exact absurd hacc this
      | update url status =>
        intro c hc hacc
        simp only [applyOp, updateConnectionStatusRows, List.mem_map] at hc
        obtain ⟨a, ha, rfl⟩ := hc
        by_cases heq : a.profileURL = url
        · simp only [heq, if_pos rfl] at hacc ⊢
          by_cases hst : status = "accepted"
          · simp [hst]
          · exact absurd hacc hst
        · simp only [if_neg heq] at hacc ⊢
          exact h0 a ha hacc
    exact ih (applyOp l0 op) hstep
      (fun o ho => hops o (List.mem_cons_of_mem _ ho))

/-- Witness for the amended C5: save-pending then accept yields an
"accepted" row whose acceptance timestamp is set. -/
theorem acceptedAt_set_when_accepted_witness :
    (∀ c ∈ applyOps [(0, StoreOp.save "u" "" "pending"),
        (5, StoreOp.update "u" "accepted")] ([] : List ConnectionRequest),
      c.status = "accepted" → c.acceptedAt.isSome = true) ∧
    applyOps [(0, StoreOp.save "u" "" "pending"), (5, StoreOp.update "u" "accepted")]
        ([] : List ConnectionRequest) = [⟨"u", 0, "", "accepted", some 5⟩] :=
  ⟨acceptedAt_set_when_accepted _ _ (by simp) (by decide), by decide⟩

theorem hourlyConnections_afterSuccessfulSend (st : Store) (url : String) (now : Nat) :
    hourlyConnections (afterSuccessfulSend st url now) now = hourlyConnections st now + 1 := by
  simp [afterSuccessfulSend, hourlyConnections, logActivity, saveConnectionRequest,
    saveConnectionRequestRow, List.filter_append, inLastHour]

theorem canSendConnection_after_cap_one (st : Store) (url : String) (now : Nat)
    (cfg : Config) (hcap : cfg.rateLimits.connections.perHour = 1) :
    canSendConnection (afterSuccessfulSend st url now) now cfg = false := by
  unfold canSendConnection
  split
  · rfl
  · rw [if_pos]
    rw [hourlyConnections_afterSuccessfulSend, hcap]
    push_cast
    omega

/-- The configuration of the end-to-end quota scenario: hourly connection
cap 1 (daily cap 100), otherwise as `cfgEx`. -/
def cfgCap1 : Config := { cfgEx with rateLimits := ⟨⟨1, 100⟩, ⟨4, 15⟩, ⟨10, 50⟩⟩ }

/-- **C6, counterexample.** With hourly connection cap 1 and two fresh
targets "A" and "B", the phase sends exactly one request, but the activity
log receives only the single success event for "A": the quota-blocked skip
of "B" is a process-log warning followed by `break`, never an
ActivityEvent, so the claimed quota-skip event does not exist. -/
theorem quota_skip_not_logged :
    (sendConnectionRequests cfgCap1 0 (fun _ => true) [⟨"A"⟩, ⟨"B"⟩] emptyStore).2 = 1 ∧
    (sendConnectionRequests cfgCap1 0 (fun _ => true) [⟨"A"⟩, ⟨"B"⟩] emptyStore).1.activity
      = [⟨"connection_request", "A", "success", ""⟩] ∧
    ((sendConnectionRequests cfgCap1 0 (fun _ => true) [⟨"A"⟩, ⟨"B"⟩]
        emptyStore).1.activity.filter (fun e => e.targetURL == "B")) = [] := by
  refine ⟨by decide, by decide, by decide⟩

/-- **C6, amended.** With hourly connection cap 1, a permitted fresh first
target and any second target: the phase sends exactly one request and stops,
appending exactly one ActivityEvent — the success event for the first
target; no event of any kind is recorded for the quota-blocked second
target. -/
theorem quota_block_ends_phase (cfg : Config) (now : Nat) (ok : Profile → Bool)
    (a b : Profile) (st : Store)
    (hcap : cfg.rateLimits.connections.perHour = 1)
    (hq : canSendConnection st now cfg = true)
    (hs : isConnectionSent st a.profileURL = false)
    (hok : ok a = true) :
    sendConnectionRequests cfg now ok [a, b] st
      = (afterSuccessfulSend st a.profileURL now, 1) ∧
    (afterSuccessfulSend st a.profileURL now).activity
      = st.activity ++ [⟨"connection_request", a.profileURL, "success", ""⟩] := by
  refine ⟨?_, rfl⟩
  conv_lhs => unfold sendConnectionRequests
  rw [if_neg (by simp [hq]), if_neg (by simp [hs]), hok, sendConnectionRequest_true]
  have hstop : sendConnectionRequests cfg now ok [b]
      (afterSuccessfulSend st a.profileURL now)
      = (afterSuccessfulSend st a.profileURL now, 0) := by
    conv_lhs => unfold sendConnectionRequests
    rw [if_pos (canSendConnection_after_cap_one st a.profileURL now cfg hcap)]
  simp only [hstop]

/-- Witness for the amended C6 at the concrete scenario of the claim. -/
theorem quota_block_ends_phase_witness :
    sendConnectionRequests cfgCap1 0 (fun _ => true) [⟨"A"⟩, ⟨"B"⟩] emptyStore
      = (afterSuccessfulSend emptyStore "A" 0, 1) ∧
    (afterSuccessfulSend emptyStore "A" 0).activity
      = [⟨"connection_request", "A", "success", ""⟩] :=
  quota_block_ends_phase cfgCap1 0 (fun _ => true) ⟨"A"⟩ ⟨"B"⟩ emptyStore rfl
    (by decide) (by decide) rfl

/-- The `switch delayType` of `stealth.Stealth.RandomDelay`: the four known
categories read their configured band; the `default` branch falls back to
`min = 1000, max = 3000`. -/
def delayBand (cfg : Config) (delayType : String) : Int × Int :=
  if delayType = "action" then (cfg.stealth.actionDelay.min, cfg.stealth.actionDelay.max)
  else if delayType = "scroll" then (cfg.stealth.scrollDelay.min, cfg.stealth.scrollDelay.max)
  else if delayType = "typing" then (cfg.stealth.typingDelay.min, cfg.stealth.typingDelay.max)
  else if delayType = "think" then (cfg.stealth.thinkTime.min, cfg.stealth.thinkTime.max)
  else (1000, 3000)

/-- The sleep duration of `RandomDelay` in milliseconds:
`delay := min + rand.Intn(max-min+1)`, with the randomness source drawing
`r % (max-min+1)` — for a valid band every residue, hence every duration in
`[min, max]`, occurs. -/
def randomDelayMs (cfg : Config) (delayType : String) (r : Nat) : Int :=
  (delayBand cfg delayType).1 +
    (r : Int) % ((delayBand cfg delayType).2 - (delayBand cfg delayType).1 + 1)

/-- **C7, counterexample.** For the unconfigured category name "lunch" the
code does not return immediately: it falls into the `default` branch and
sleeps a duration from the `[1000, 3000]` ms fallback band (here 1000 ms at
seed 0), so `RandomDelay` on an unknown category is not a no-op. -/
theorem unconfigured_delay_not_noop :
    randomDelayMs cfgEx "lunch" 0 = 1000 ∧ (1000 : Int) ≠ 0 ∧
    delayBand cfgEx "lunch" = (1000, 3000) := by
  refine ⟨by decide, by decide, by decide⟩

/-- **C7, amended.** For every category the sleep duration lies in the
closed band selected by the switch — the configured `[min, max]` for
`action`/`scroll`/`typing`/`think` — and every duration in that band is
attained by some draw; but a category name outside the four configured ones
selects the `[1000, 3000]` fallback band rather than being a no-op. -/
theorem delay_band_spec (cfg : Config) (ty : String) (r : Nat)
    (h : (delayBand cfg ty).1 ≤ (delayBand cfg ty).2) :
    ((delayBand cfg ty).1 ≤ randomDelayMs cfg ty r ∧
      randomDelayMs cfg ty r ≤ (delayBand cfg ty).2) ∧
    (∀ d : Int, (delayBand cfg ty).1 ≤ d → d ≤ (delayBand cfg ty).2 →
      ∃ rr : Nat, randomDelayMs cfg ty rr = d) ∧
    (ty ≠ "action" → ty ≠ "scroll" → ty ≠ "typing" → ty ≠ "think" →
      delayBand cfg ty = (1000, 3000)) := by
  have hpos : 0 < (delayBand cfg ty).2 - (delayBand cfg ty).1 + 1 := by omega
  refine ⟨⟨?_, ?_⟩, ?_, ?_⟩
  · have h0 := Int.emod_nonneg (r : Int)
      (by omega : (delayBand cfg ty).2 - (delayBand cfg ty).1 + 1 ≠ 0)
    unfold randomDelayMs
    omega
  · have h1 := Int.emod_lt_of_pos (r : Int) hpos
    unfold randomDelayMs
    omega
  · intro d hd1 hd2
    refine ⟨(d - (delayBand cfg ty).1).toNat, ?_⟩
    unfold randomDelayMs
    rw [Int.toNat_of_nonneg (by omega)]
    rw [Int.emod_eq_of_lt (by omega) (by omega)]
    omega
  · intro h1 h2 h3 h4
    simp [delayBand, h1, h2, h3, h4]

/-- Witness for the amended C7 at the concrete config and the `action`
category (band `[100, 200]`). -/
theorem delay_band_spec_witness :
    ((delayBand cfgEx "action").1 ≤ randomDelayMs cfgEx "action" 7 ∧
      randomDelayMs cfgEx "action" 7 ≤ (delayBand cfgEx "action").2) ∧
    randomDelayMs cfgEx "action" 7 = 107 :=
  ⟨(delay_band_spec cfgEx "action" 7 (by decide)).1, by decide⟩

/-- `config.Config.Validate`, translated check-for-check; `Load` calls it and
aborts startup on any `some` result. -/
def validate (c : Config) : Option String :=
  if c.browser.viewport.width ≤ 0 ∨ c.browser.viewport.height ≤ 0 then
    some "invalid viewport dimensions"
  else if c.browser.userAgents.isEmpty then
    some "at least one user agent must be specified"
  else if c.rateLimits.connections.perDay ≤ 0 then
    some "connections per day must be positive"
  else if c.storage.databasePath = "" then
    some "database path must be specified"
  else none

/-- `cfgEx` with both message caps zero. -/
def cfgZeroMsg : Config := { cfgEx with rateLimits := ⟨⟨5, 20⟩, ⟨0, 0⟩, ⟨10, 50⟩⟩ }

/-- `cfgEx` with hourly connection cap zero. -/
def cfgZeroHour : Config := { cfgEx with rateLimits := ⟨⟨0, 20⟩, ⟨4, 15⟩, ⟨10, 50⟩⟩ }

/-- **C8, counterexample.** `Validate` accepts a configuration whose daily
and hourly message caps are zero, and one whose hourly connection cap is
zero: only `Connections.PerDay` is checked.  With such a configuration the
zero cap is exactly "silently enforced as always-blocking at runtime":
`canSendMessage` (resp. `canSendConnection`) is false even on an empty
store. -/
theorem validate_accepts_zero_caps :
    validate cfgZeroMsg = none ∧ cfgZeroMsg.rateLimits.messages.perDay = 0 ∧
    canSendMessage emptyStore 0 cfgZeroMsg = false ∧
    validate cfgZeroHour = none ∧ cfgZeroHour.rateLimits.connections.perHour = 0 ∧
    canSendConnection emptyStore 0 cfgZeroHour = false := by
  refine ⟨by decide, by decide, by decide, by decide, by decide, by decide⟩

/-- `cfgEx` with only the hourly message cap zero. -/
def cfgZeroMsgHour : Config := { cfgEx with rateLimits := ⟨⟨5, 20⟩, ⟨0, 15⟩, ⟨10, 50⟩⟩ }

/-- **C8, amended.** Startup validation rejects only a nonpositive
connections-per-day cap (besides viewport, user-agent and database-path
checks).  A nonpositive hourly connection cap and nonpositive message caps
(hourly or daily) pass `Validate` and are instead silently always-blocking
at runtime, since the quota checks compare with `count >= cap` and counts
are nonnegative.  The search caps (`RateLimits.Searches`) are neither
validated nor read by any runtime quota check in the repository — the
search phase consults no rate limit, so they are simply unenforced (which
is why the embedding has no search quota function to prove anything
about). -/
theorem validate_scope (c : Config) (st : Store) (now : Nat) :
    (validate c = none → 0 < c.rateLimits.connections.perDay) ∧
    (c.rateLimits.messages.perDay ≤ 0 → canSendMessage st now c = false) ∧
    (c.rateLimits.messages.perHour ≤ 0 → canSendMessage st now c = false) ∧
    (c.rateLimits.connections.perHour ≤ 0 → canSendConnection st now c = false) := by
  refine ⟨?_, ?_, ?_, ?_⟩
  · intro h
    unfold validate at h
    split at h
    · exact absurd h (by simp)
    · split at h
      · exact absurd h (by simp)
      · split at h
        · exact absurd h (by simp)
        · omega
  · intro h
    unfold canSendMessage
    rw [if_pos (by omega)]
  · intro h
    unfold canSendMessage
    split
    · rfl
    · rw [if_pos (by omega)]
  · intro h
    unfold canSendConnection
    split
    · rfl
    · rw [if_pos (by omega)]

/-- Witness for the amended C8 at the concrete configurations. -/
theorem validate_scope_witness :
    (0 : Int) < cfgEx.rateLimits.connections.perDay ∧
    canSendMessage emptyStore 0 cfgZeroMsg = false ∧
    canSendMessage emptyStore 0 cfgZeroMsgHour = false ∧
    canSendConnection emptyStore 0 cfgZeroHour = false :=
  ⟨(validate_scope cfgEx emptyStore 0).1 (by decide),
   (validate_scope cfgZeroMsg emptyStore 0).2.1 (by decide),
   (validate_scope cfgZeroMsgHour emptyStore 0).2.2.1 (by decide),
   (validate_scope cfgZeroHour emptyStore 0).2.2.2 (by decide)⟩

/-- Calendar day index of a minute instant. -/
def dayOf (t : Nat) : Nat := t / 1440

/-- Hour of day of a minute instant. -/
def hourOf (t : Nat) : Nat := t % 1440 / 60

/-- `t.Weekday().String()`, lowercased by the scheduler; the epoch (day 0)
is taken to be a Thursday (the Unix convention — any fixed choice works). -/
def weekdayName (d : Nat) : String :=
  ["thursday", "friday", "saturday", "sunday", "monday", "tuesday",
    "wednesday"].getD (d % 7) ""

/-- `strings.ToLower` restricted to ASCII (weekday names are ASCII). -/
def lowerString (s : String) : String := String.mk (s.data.map Char.toLower)

/-- `scheduler.Service.isActiveDay` on a day index: linear scan of
`ActiveDays` comparing lowercased names. -/
def isActiveDayIdx (cfg : Config) (d : Nat) : Bool :=
  cfg.scheduling.activeDays.any
    (fun day => lowerString day == lowerString (weekdayName d))

/-- `scheduler.Service.isActiveDay` on an instant. -/
def isActiveDay (cfg : Config) (t : Nat) : Bool := isActiveDayIdx cfg (dayOf t)

/-- `scheduler.Service.isActiveHour`: half-open `[start, end)` window, with
overnight wraparound (`end < start` means `hour ≥ start ∨ hour < end`). -/
def isActiveHour (cfg : Config) (t : Nat) : Bool :=
  if cfg.scheduling.activeHours.endHour < cfg.scheduling.activeHours.start then
    decide ((hourOf t : Int) ≥ cfg.scheduling.activeHours.start ∨
      (hourOf t : Int) < cfg.scheduling.activeHours.endHour)
  else
    decide ((hourOf t : Int) ≥ cfg.scheduling.activeHours.start ∧
      (hourOf t : Int) < cfg.scheduling.activeHours.endHour)

/-- `scheduler.Service.ShouldRun`. -/
def shouldRun (cfg : Config) (t : Nat) : Bool := isActiveDay cfg t && isActiveHour cfg t

/-- The `time.Date(year, month, day, Start, 0, 0, 0, loc)` instant of a day
index: the day's window-start. -/
def dayStart (cfg : Config) (d : Nat) : Int :=
  (d : Int) * 1440 + cfg.scheduling.activeHours.start * 60

/-- The 7-iteration scan of `scheduler.Service.GetNextRunTime`.  The Go loop
carries a timestamp `next` stepped by 24 h; only its day index feeds
`isActiveDay` and `time.Date(..., Start, 0, 0, 0, ...)`, and (for
`0 ≤ Start ≤ 23`) the day index advances by exactly one per iteration in
both branches, so the scan is carried on the day index directly. -/
def nextRunScan (cfg : Config) (now : Nat) : Nat → Nat → Int
  | 0, _ => dayStart cfg (dayOf now + 1)
  | k + 1, d =>
    if isActiveDayIdx cfg d then
      if (now : Int) < dayStart cfg d then dayStart cfg d
      else nextRunScan cfg now k (d + 1)
    else nextRunScan cfg now k (d + 1)

/-- `scheduler.Service.GetNextRunTime`: `now` when inside the active window,
otherwise a bounded 7-day scan with the "tomorrow at window start"
fallback. -/
def getNextRunTime (cfg : Config) (now : Nat) : Int :=
  if shouldRun cfg now then (now : Int) else nextRunScan cfg now 7 (dayOf now)

/-- A day index whose window-start the scan may return: flagged active with
a window-start instant strictly after `now`. -/
def eligibleDay (cfg : Config) (now : Nat) (d : Nat) : Prop :=
  isActiveDayIdx cfg d = true ∧ (now : Int) < dayStart cfg d

instance (cfg : Config) (now d : Nat) : Decidable (eligibleDay cfg now d) :=
  inferInstanceAs (Decidable (_ ∧ _))

/-- Full characterization of the bounded scan: it returns the window-start
of the **first** eligible day of the `k`-day horizon starting at `d`, and
the tomorrow-at-window-start fallback when the horizon has none. -/
theorem nextRunScan_spec (cfg : Config) (now : Nat) :
    ∀ (k : Nat) (d : Nat),
      (∃ i, i < k ∧ eligibleDay cfg now (d + i) ∧
        nextRunScan cfg now k d = dayStart cfg (d + i) ∧
        ∀ j, j < i → ¬ eligibleDay cfg now (d + j)) ∨
      ((∀ i, i < k → ¬ eligibleDay cfg now (d + i)) ∧
        nextRunScan cfg now k d = dayStart cfg (dayOf now + 1)) := by
  intro k
  induction k with
  | zero => exact fun d => Or.inr ⟨fun i h => absurd h (by omega), rfl⟩
  | succ k ih =>
    intro d
    unfold nextRunScan
    by_cases hact : isActiveDayIdx cfg d = true
    · rw [if_pos hact]
      by_cases hlt : (now : Int) < dayStart cfg d
      · rw [if_pos hlt]
        exact Or.inl ⟨0, by omega, ⟨by simpa using hact, by simpa using hlt⟩,
          by simp, fun j hj => absurd hj (by omega)⟩
      · rw [if_neg hlt]
        rcases ih (d + 1) with ⟨i, hik, hel, he, hmin⟩ | ⟨hnone, he⟩
        · refine Or.inl ⟨i + 1, by omega,
            by rw [show d + (i + 1) = d + 1 + i by omega]; exact hel,
            by rw [show d + (i + 1) = d + 1 + i by omega]; exact he, ?_⟩
          intro j hj
          cases j with
          | zero => exact fun hc => hlt (by simpa using hc.2)
          | succ m =>
            rw [show d + (m + 1) = d + 1 + m by omega]
            exact hmin m (by omega)
        · refine Or.inr ⟨?_, he⟩
          intro i hi
          cases i with
          | zero => exact fun hc => hlt (by simpa using hc.2)
          | succ j =>
            rw [show d + (j + 1) = d + 1 + j by omega]
            exact hnone j (by omega)
    · rw [if_neg hact]
      rcases ih (d + 1) with ⟨i, hik, hel, he, hmin⟩ | ⟨hnone, he⟩
      · refine Or.inl ⟨i + 1, by omega,
          by rw [show d + (i + 1) = d + 1 + i by omega]; exact hel,
          by rw [show d + (i + 1) = d + 1 + i by omega]; exact he, ?_⟩
        intro j hj
        cases j with
        | zero => exact fun hc => hact hc.1
        | succ m =>
          rw [show d + (m + 1) = d + 1 + m by omega]
          exact hmin m (by omega)
      · refine Or.inr ⟨?_, he⟩
        intro i hi
        cases i with
        | zero => exact fun hc => hact hc.1
        | succ j =>
          rw [show d + (j + 1) = d + 1 + j by omega]
          exact hnone j (by omega)

/-- **C9.** For a nonnegative window-start hour: inside the active window
`GetNextRunTime` returns `now`; outside it, the result is strictly after
`now` and is either the window-start instant of an active day at most 7 days
ahead, or the "tomorrow at window start" fallback; whenever the 7-day
horizon contains an eligible day (active, with its window-start strictly
after `now`) the result is exactly the **first** such day's window-start;
and when no day of the horizon is active (in particular with an empty
active-day list) it is exactly the bounded fallback. -/
theorem next_run_time_spec (cfg : Config) (now : Nat)
    (hstart : 0 ≤ cfg.scheduling.activeHours.start) :
    (shouldRun cfg now = true → getNextRunTime cfg now = (now : Int)) ∧
    (shouldRun cfg now = false →
      ((now : Int) < getNextRunTime cfg now ∧
       (getNextRunTime cfg now = dayStart cfg (dayOf now + 1) ∨
         ∃ i, i < 7 ∧ isActiveDayIdx cfg (dayOf now + i) = true ∧
           getNextRunTime cfg now = dayStart cfg (dayOf now + i)) ∧
       ((∃ i, i < 7 ∧ eligibleDay cfg now (dayOf now + i)) →
         ∃ i, i < 7 ∧ eligibleDay cfg now (dayOf now + i) ∧
           getNextRunTime cfg now = dayStart cfg (dayOf now + i) ∧
           ∀ j, j < i → ¬ eligibleDay cfg now (dayOf now + j)) ∧
       ((∀ i, i < 7 → isActiveDayIdx cfg (dayOf now + i) = false) →
         getNextRunTime cfg now = dayStart cfg (dayOf now + 1)))) := by
  have hfall : (now : Int) < dayStart cfg (dayOf now + 1) := by
    unfold dayStart
    have h1 : now < (dayOf now + 1) * 1440 := by
      unfold dayOf; omega
    have h2 : ((dayOf now + 1 : Nat) : Int) * 1440 ≤
        ((dayOf now + 1 : Nat) : Int) * 1440 + cfg.scheduling.activeHours.start * 60 := by
      omega
    calc (now : Int) < ((dayOf now + 1 : Nat) : Int) * 1440 := by exact_mod_cast h1
      _ ≤ _ := h2
  constructor
  · intro h
    unfold getNextRunTime
    rw [if_pos h]
  · intro h
    have hmain : getNextRunTime cfg now = nextRunScan cfg now 7 (dayOf now) := by
      unfold getNextRunTime
      rw [if_neg (by simp [h])]
    rcases nextRunScan_spec cfg now 7 (dayOf now) with ⟨i, hik, hel, he, hmin⟩ | ⟨hnone, he⟩
    · refine ⟨by rw [hmain, he]; exact hel.2,
        Or.inr ⟨i, hik, hel.1, by rw [hmain, he]⟩,
        fun _ => ⟨i, hik, hel, by rw [hmain, he], hmin⟩, ?_⟩
      intro hall
      exact absurd hel.1 (by simp [hall i hik])
    · refine ⟨by rw [hmain, he]; exact hfall, Or.inl (by rw [hmain, he]), ?_,
        fun _ => by rw [hmain, he]⟩
      rintro ⟨i, hik, hel⟩
      exact absurd hel (hnone i hik)

/-- Witness for C9 with `cfgEx` (active Monday/Tuesday, 9–17): inside the
window on Monday day 4 (minute 6360 = Monday 10:00) the result is `now`;
from Thursday midnight (minute 0) the result is Monday 09:00 = minute 6300;
with no active days the result is the fallback, tomorrow 09:00. -/
theorem next_run_time_spec_witness :
    getNextRunTime cfgEx 6360 = (6360 : Int) ∧
    ((0 : Int) < getNextRunTime cfgEx 0 ∧ getNextRunTime cfgEx 0 = 6300) ∧
    (∃ i, i < 7 ∧ eligibleDay cfgEx 0 (dayOf 0 + i) ∧
      getNextRunTime cfgEx 0 = dayStart cfgEx (dayOf 0 + i) ∧
      ∀ j, j < i → ¬ eligibleDay cfgEx 0 (dayOf 0 + j)) ∧
    getNextRunTime
        { cfgEx with scheduling := ⟨⟨9, 17⟩, []⟩ } 0 = 1980 :=
  ⟨(next_run_time_spec cfgEx 6360 (by decide)).1 (by decide),
   ⟨((next_run_time_spec cfgEx 0 (by decide)).2 (by decide)).1, by decide⟩,
   ((next_run_time_spec cfgEx 0 (by decide)).2 (by decide)).2.2.1
     ⟨4, by omega, by decide⟩,
   by
    have h := ((next_run_time_spec { cfgEx with scheduling := ⟨⟨9, 17⟩, []⟩ } 0
      (by decide)).2 (by decide)).2.2.2 (fun i _ => by simp [isActiveDayIdx])
    rw [h]
    decide⟩

/-- **C10.** A connection row whose `AcceptedAt` is `nil` bypasses the
post-acceptance dwell check entirely: whatever the configured delay and the
current time, the messaging loop proceeds straight to the send attempt
(`acceptedTooRecently` is false without reading the delay), and on a
successful attempt the message is persisted and counted. -/
theorem nil_acceptedAt_skips_delay (cfg : Config) (now : Nat)
    (ok : ConnectionRequest → Bool) (content : ConnectionRequest → String)
    (c : ConnectionRequest) (cs : List ConnectionRequest) (st : Store)
    (hq : canSendMessage st now cfg = true)
    (hacc : c.acceptedAt = none)
    (hok : ok c = true) :
    sendMessagesLoop cfg now ok content (c :: cs) st
      = (let st1 := logActivity (saveMessage st c.profileURL (content c) "sent" now)
           "message" c.profileURL "success" ""
         let r := sendMessagesLoop cfg now ok content cs st1
         (r.1, r.2 + 1)) ∧
    acceptedTooRecently cfg now c = false := by
  have hrec : acceptedTooRecently cfg now c = false := by
    unfold acceptedTooRecently
    rw [hacc]
  refine ⟨?_, hrec⟩
  conv_lhs => unfold sendMessagesLoop
  rw [if_neg (by simp [hq]), if_neg (by simp [hrec]), if_pos hok]

/-- Witness for C10: an accepted row with `nil` acceptance timestamp is
messaged immediately at `now = 0` even with a huge configured delay. -/
theorem nil_acceptedAt_skips_delay_witness :
    sendMessagesLoop { cfgEx with messaging := ⟨true, 1000000⟩ } 0
        (fun _ => true) (fun _ => "hi") [⟨"u", 0, "", "accepted", none⟩] emptyStore
      = (logActivity (saveMessage emptyStore "u" "hi" "sent" 0) "message" "u" "success" "", 1) := by
  rw [(nil_acceptedAt_skips_delay { cfgEx with messaging := ⟨true, 1000000⟩ } 0
    (fun _ => true) (fun _ => "hi") ⟨"u", 0, "", "accepted", none⟩ [] emptyStore
    (by decide) rfl rfl).1]
  rfl

end LinkedinBot
